import Mathlib

/-!
Verification of the doonop crawl-orchestration engine.

The definitions below are a shallow embedding of the Rust sources:
URLs are strings (for the frontier and retry machinery) or records with an
optional domain (for the filter chain); the wall clock that the retry pool
reads through SystemTime::now() is an explicit natural-number parameter;
fallible operations return Option or a tagged result type.  Each definition
cites the source item it embeds.
-/

namespace Doonop

/-- URLs as handled by the frontier, the retry pool and the control loop. -/
abbrev Url := String

/-- Minimal model of serde_json::Value: only nullness and payload identity
matter to the crawl loop (src/src/workload.rs, src/src/engine.rs). -/
inductive JValue where
  | null : JValue
  | str : String → JValue
  deriving DecidableEq, Repr

/-- Model of Value::is_null. -/
def JValue.is_null : JValue → Bool
  | .null => true
  | _ => false

/- ===== Filter chain (src/src/filters.rs) ===== -/

/-- A URL as seen by Filter::is_ignored: only its optional domain matters for
the Domain variant (url.domain() in src/src/filters.rs line 19). -/
structure UrlRec where
  domain : Option String
  deriving DecidableEq, Repr

/-- Repeatedly remove the leading character pattern w w w dot, on the
character list of a string. -/
def trimWWWChars : List Char → List Char
  | 'w' :: 'w' :: 'w' :: '.' :: rest => trimWWWChars rest
  | other => other

/-- Model of h.trim_start_matches("www.") from src/src/filters.rs line 23:
ALL leading occurrences of "www." are removed ("repeatedly removed" per the
Rust documentation of trim_start_matches). -/
def trimStartMatchesWWW (s : String) : String :=
  ⟨trimWWWChars s.data⟩

/-- Remove one leading occurrence of the pattern w w w dot. -/
def stripOneWWWChars : List Char → List Char
  | 'w' :: 'w' :: 'w' :: '.' :: rest => rest
  | other => other

/-- Modelled from the spec sentence of claim C9 ("after stripping a leading
www. from both"): a single strip, for comparison against the source, which
strips repeatedly. -/
def stripOneWWW (s : String) : String :=
  ⟨stripOneWWWChars s.data⟩

/-- Filter::Domain (src/src/filters.rs line 11); the Regex variant is not
modelled since no claim depends on it. -/
structure DomainFilter where
  allowed : List String
  deriving Repr

/-- Model of Filter::is_ignored for the Domain variant
(src/src/filters.rs lines 18-26): a URL with no domain is ignored
(unwrap_or(true)); otherwise it is NOT ignored exactly when some entry,
compared with leading www. prefixes trimmed on both sides, equals the domain. -/
def DomainFilter.is_ignored (f : DomainFilter) (url : UrlRec) : Bool :=
  match url.domain with
  | none => true
  | some h =>
      !(f.allowed.any (fun d => trimStartMatchesWWW h == trimStartMatchesWWW d))

/-- Modelled from the spec sentence of claim C9: not-ignored means some entry
matches after a SINGLE leading www. strip on both sides. -/
def specSingleStripMatch (allowed : List String) (url : UrlRec) : Bool :=
  match url.domain with
  | none => false
  | some h => allowed.any (fun d => stripOneWWW h == stripOneWWW d)

/- ===== BackendError (src/src/searcher.rs) ===== -/

/-- Model of thirtyfour::error::WebDriverError: only the Timeout constructor
is distinguished by BackendError::is_timeout (src/src/searcher.rs line 62). -/
inductive WDError where
  | timeout : WDError
  | otherErr : WDError
  deriving DecidableEq, Repr

/-- Model of BackendError (src/src/searcher.rs lines 30-48): three variants
carry a source error and the failing address; Other carries only a message. -/
inductive BackendError where
  | openAddress (source : WDError) (address : Url)
  | runningScript (source : WDError) (address : Url)
  | collectLinks (source : WDError) (address : Url)
  | other (msg : String)
  deriving DecidableEq, Repr

/-- Model of BackendError::wb_error (src/src/searcher.rs lines 51-58). -/
def BackendError.wb_error : BackendError → Option WDError
  | .runningScript source _ => some source
  | .openAddress source _ => some source
  | .collectLinks source _ => some source
  | .other _ => none

/-- Model of BackendError::is_timeout (src/src/searcher.rs lines 60-65). -/
def BackendError.is_timeout (e : BackendError) : Bool :=
  match e.wb_error with
  | some .timeout => true
  | _ => false

/-- Model of BackendError::address (src/src/searcher.rs lines 67-74). -/
def BackendError.address : BackendError → Option Url
  | .runningScript _ address => some address
  | .openAddress _ address => some address
  | .collectLinks _ address => some address
  | .other _ => none

/- ===== RetryPool (src/src/retry.rs) ===== -/

/-- Model of RetryPool (src/src/retry.rs lines 7-12).  The BTreeMap from
SystemTime to Vec of URLs becomes an association list sorted by ascending
key; the HashMap from URL to usize becomes an association list; Durations
and SystemTimes become naturals (an explicit clock parameter replaces
SystemTime::now()). -/
structure RetryPool where
  fire_time : Nat
  count_retries : Nat
  pool : List (Nat × List Url)
  retry_count : List (Url × Nat)
  deriving DecidableEq, Repr

/-- Model of RetryPool::new (src/src/retry.rs lines 15-22). -/
def RetryPool.new (fire_time count_retries : Nat) : RetryPool :=
  ⟨fire_time, count_retries, [], []⟩

/-- Lookup in the retry_count association list; absent keys read as the
or_insert(0) default of the entry API. -/
def rcLookup (m : List (Url × Nat)) (u : Url) : Nat :=
  match m.find? (fun p => p.1 == u) with
  | some p => p.2
  | none => 0

/-- Store a counter value for a URL, replacing any previous binding. -/
def rcStore (m : List (Url × Nat)) (u : Url) (v : Nat) : List (Url × Nat) :=
  match m with
  | [] => [(u, v)]
  | p :: rest => if p.1 == u then (u, v) :: rest else p :: rcStore rest u v

/-- Model of the BTreeMap entry(now).or_default().push(url) pattern of
src/src/retry.rs lines 31-33: append to the bucket at the key if present,
otherwise insert a fresh singleton bucket keeping keys sorted ascending. -/
def bucketPush (pool : List (Nat × List Url)) (now : Nat) (u : Url) :
    List (Nat × List Url) :=
  match pool with
  | [] => [(now, [u])]
  | (k, b) :: rest =>
      if now < k then (now, [u]) :: (k, b) :: rest
      else if now = k then (k, b ++ [u]) :: rest
      else (k, b) :: bucketPush rest now u

/-- Model of RetryPool::keep_retry (src/src/retry.rs lines 24-36): bump the
attempt counter for the URL; if it reached count_retries return false without
enqueueing, otherwise enqueue under the current clock and return true. -/
def RetryPool.keep_retry (now : Nat) (url : Url) (rp : RetryPool) :
    Bool × RetryPool :=
  let c := rcLookup rp.retry_count url + 1
  let rp1 : RetryPool := { rp with retry_count := rcStore rp.retry_count url c }
  if rp.count_retries ≤ c then (false, rp1)
  else (true, { rp1 with pool := bucketPush rp1.pool now url })

/-- Model of RetryPool::get_url (src/src/retry.rs lines 38-55): look at the
earliest key; it qualifies when its age exceeds fire_time or force is set;
a singleton bucket is removed whole, a larger bucket pops its last element
(Vec::pop), an empty bucket yields none. -/
def RetryPool.get_url (now : Nat) (force : Bool) (rp : RetryPool) :
    Option Url × RetryPool :=
  match rp.pool with
  | [] => (none, rp)
  | (k, b) :: rest =>
      if rp.fire_time < now - k ∨ force = true then
        match b with
        | [] => (none, rp)
        | [u] => (some u, { rp with pool := rest })
        | _ => (b.getLast?, { rp with pool := (k, b.dropLast) :: rest })
      else (none, rp)

/-- Model of RetryPool::is_empty (src/src/retry.rs lines 57-59). -/
def RetryPool.is_empty (rp : RetryPool) : Bool :=
  rp.pool.isEmpty

/-- Total number of URLs waiting in the pool buckets (used as a termination
measure for the dispatch loop). -/
def RetryPool.totalUrls (rp : RetryPool) : Nat :=
  (rp.pool.map (fun p => p.2.length)).sum

/- ===== Workload frontier and URL selection (src/src/workload.rs) ===== -/

/-- Model of RetryPolicy (src/src/workload.rs lines 37-42). -/
inductive RetryPolicy where
  | RetryFirst
  | RetryLast
  | No
  deriving DecidableEq, Repr

/-- Model of Statistics (src/src/workload.rs lines 44-50). -/
structure Statistics where
  count_errors : Nat
  count_retries : Nat
  count_visited : Nat
  count_collected : Nat
  deriving DecidableEq, Repr

/-- Statistics::default(): all counters zero. -/
def Statistics.zero : Statistics := ⟨0, 0, 0, 0⟩

/-- The frontier-and-policy fragment of Workload (src/src/workload.rs lines
24-35); the engine ring, spawned-job map and channels live in the loop state
below.  The robots fields are omitted: the model covers the
use_robot_check = false configuration. -/
structure Workload where
  urls_pool : List Url
  retry_policy : RetryPolicy
  retry_pool : RetryPool
  seen_list : Finset Url
  url_limit : Option Nat
  deriving DecidableEq

/-- Model of Workload::filter_urls (src/src/workload.rs lines 187-196):
insert each URL into the seen set, keeping exactly those whose insertion
found them absent. -/
def Workload.filter_urls (w : Workload) (urls : List Url) :
    List Url × Workload :=
  match urls with
  | [] => ([], w)
  | u :: rest =>
      if u ∈ w.seen_list then Workload.filter_urls w rest
      else
        let r := Workload.filter_urls { w with seen_list := insert u w.seen_list } rest
        (u :: r.1, r.2)

/-- Model of Workload::keep_urls (src/src/workload.rs lines 231-234): the
surviving URLs are appended to the frontier stack. -/
def Workload.keep_urls (w : Workload) (urls : List Url) : Workload :=
  let r := w.filter_urls urls
  { r.2 with urls_pool := r.2.urls_pool ++ r.1 }

/-- Model of Workload::mark_visited (src/src/workload.rs lines 209-211). -/
def Workload.mark_visited (w : Workload) (url : Url) : Workload :=
  { w with seen_list := insert url w.seen_list }

/-- Model of Workload::inc_limit (src/src/workload.rs lines 198-207). -/
def Workload.inc_limit (w : Workload) : Bool × Workload :=
  match w.url_limit with
  | some 0 => (true, w)
  | some (l + 1) => (l = 0, { w with url_limit := some l })
  | none => (false, w)

/-- Model of Workload::is_any_urls (src/src/workload.rs lines 227-229). -/
def Workload.is_any_urls (w : Workload) : Bool :=
  !(w.retry_pool.is_empty && w.urls_pool.isEmpty)

/-- Model of Workload::get_url (src/src/workload.rs lines 213-225).  Vec::pop
takes the last element of urls_pool.  Under RetryFirst the retry pool is
always consulted first, with force exactly when the frontier is empty; under
RetryLast the frontier pop runs first and the retry pool is consulted (with
force, since the frontier must then be empty) only when the pop yields
nothing; under No only the frontier is consulted. -/
def Workload.get_url (now : Nat) (w : Workload) : Option Url × Workload :=
  match w.retry_policy with
  | .No =>
      (w.urls_pool.getLast?, { w with urls_pool := w.urls_pool.dropLast })
  | .RetryFirst =>
      let r := w.retry_pool.get_url now w.urls_pool.isEmpty
      match r.1 with
      | some u => (some u, { w with retry_pool := r.2 })
      | none =>
          (w.urls_pool.getLast?,
            { w with retry_pool := r.2, urls_pool := w.urls_pool.dropLast })
  | .RetryLast =>
      match w.urls_pool.getLast? with
      | some u => (some u, { w with urls_pool := w.urls_pool.dropLast })
      | none =>
          let r := w.retry_pool.get_url now true
          (r.1, { w with retry_pool := r.2 })

/- ===== EngineRing (src/src/engine_ring.rs) ===== -/

/-- Model of EngineRing (src/src/engine_ring.rs lines 11-17) together with
the id counter of the concrete EngineBuilder implementations
(src/src/engine_builder.rs: WebDriverEngineBuilder.id, incremented on each
build) and a plan of future build outcomes (true = Ok, exhausted plan reads
as Ok).  Engines are represented by their ids; free_list is the idle stack,
usage_list the set of checked-out ids. -/
structure Ring where
  free_list : List Nat
  usage_list : Finset Nat
  cap : Nat
  builder_id : Nat
  build_plan : List Bool
  deriving DecidableEq

/-- Model of EngineRing::new (src/src/engine_ring.rs lines 23-30). -/
def Ring.new (cap : Nat) (plan : List Bool) : Ring :=
  ⟨[], ∅, cap, 0, plan⟩

/-- Outcome of EngineRing::obtain: an engine plus the new ring, a build
error (io::Error from EngineBuilder::build), or the panic of the
cap-exhausted branch. -/
inductive ObtainRes where
  | ok (id : Nat) (r : Ring)
  | buildErr (r : Ring)
  | panicked
  deriving DecidableEq

/-- Model of EngineRing::obtain (src/src/engine_ring.rs lines 32-49): pop an
idle engine if one exists (inserting its id into usage_list); otherwise
panic if usage_list is already at capacity; otherwise build a new engine —
the ring inserts the locally computed id usage_list.len() while the engine
returned carries the id issued by the builder counter, exactly as in the
source. -/
def Ring.obtain (r : Ring) : ObtainRes :=
  match r.free_list with
  | e :: rest =>
      .ok e { r with free_list := rest, usage_list := insert e r.usage_list }
  | [] =>
      if r.cap ≤ r.usage_list.card then .panicked
      else if r.build_plan.headD true then
        .ok r.builder_id
          { r with
            usage_list := insert r.usage_list.card r.usage_list,
            builder_id := r.builder_id + 1,
            build_plan := r.build_plan.tail }
      else .buildErr { r with build_plan := r.build_plan.tail }

/-- Model of EngineRing::return_back (src/src/engine_ring.rs lines 51-54). -/
def Ring.return_back (r : Ring) (id : Nat) : Ring :=
  { r with
    usage_list := r.usage_list.erase id,
    free_list := r.free_list ++ [id] }

/-- Model of EngineRing::count_engines_in_use (src/src/engine_ring.rs
lines 56-58). -/
def Ring.count_engines_in_use (r : Ring) : Nat :=
  r.usage_list.card

/-- Model of EngineRing::capacity (src/src/engine_ring.rs lines 60-62). -/
def Ring.capacity (r : Ring) : Nat :=
  r.cap

/-- A caller interaction with the ring: request an engine, or give back an
engine by id.  The step function admits a giveBack only for an engine the
caller currently holds, enforcing the claim hypothesis that only previously
obtained engines are returned. -/
inductive RingOp where
  | obtain
  | giveBack (id : Nat)
  deriving DecidableEq, Repr

/-- The ring together with the engines the caller currently holds. -/
structure RingSys where
  ring : Ring
  held : List Nat
  deriving DecidableEq

/-- One caller step.  An obtain that hits the fatal branch freezes the
system (the process would panic); a giveBack of an engine not currently
held is a no-op (no such call exists under the claim hypothesis). -/
def RingSys.step (s : RingSys) (op : RingOp) : RingSys :=
  match op with
  | .obtain =>
      match s.ring.obtain with
      | .ok id r => ⟨r, id :: s.held⟩
      | .buildErr r => ⟨r, s.held⟩
      | .panicked => s
  | .giveBack id =>
      if id ∈ s.held then ⟨s.ring.return_back id, s.held.erase id⟩
      else s

/-- Run a sequence of caller interactions from a fresh ring. -/
def RingSys.run (cap : Nat) (plan : List Bool) (ops : List RingOp) : RingSys :=
  ops.foldl RingSys.step ⟨Ring.new cap plan, []⟩

/-- The inductive invariant of the ring system: checked-out plus idle
engines are exactly the builder_id engines built so far, all ids below
builder_id, idle ids distinct and disjoint from checked-out ids, the held
list distinct and contained in usage_list, and the number built never
exceeds capacity. -/
def RingInv (s : RingSys) : Prop :=
  s.ring.usage_list.card + s.ring.free_list.length = s.ring.builder_id ∧
  s.ring.free_list.Nodup ∧
  (∀ e ∈ s.ring.free_list, e ∉ s.ring.usage_list) ∧
  s.held.Nodup ∧
  (∀ e ∈ s.held, e ∈ s.ring.usage_list) ∧
  (∀ e ∈ s.ring.usage_list, e < s.ring.builder_id) ∧
  (∀ e ∈ s.ring.free_list, e < s.ring.builder_id) ∧
  s.ring.builder_id ≤ s.ring.cap

lemma ringInv_init (cap : Nat) (plan : List Bool) :
    RingInv ⟨Ring.new cap plan, []⟩ := by
  refine ⟨?_, ?_, ?_, ?_, ?_, ?_, ?_, ?_⟩ <;> simp [Ring.new]

lemma step_obtain_ok {s : RingSys} {id : Nat} {r : Ring}
    (h : s.ring.obtain = .ok id r) : s.step .obtain = ⟨r, id :: s.held⟩ := by
  unfold RingSys.step
  rw [h]

lemma step_obtain_buildErr {s : RingSys} {r : Ring}
    (h : s.ring.obtain = .buildErr r) : s.step .obtain = ⟨r, s.held⟩ := by
  unfold RingSys.step
  rw [h]

lemma step_obtain_panicked {s : RingSys}
    (h : s.ring.obtain = .panicked) : s.step .obtain = s := by
  unfold RingSys.step
  rw [h]

lemma obtain_pop {r : Ring} {e : Nat} {rest : List Nat} (h : r.free_list = e :: rest) :
    r.obtain = .ok e { r with free_list := rest, usage_list := insert e r.usage_list } := by
  unfold Ring.obtain
  rw [h]

lemma obtain_panic {r : Ring} (h : r.free_list = []) (hc : r.cap ≤ r.usage_list.card) :
    r.obtain = .panicked := by
  unfold Ring.obtain
  rw [h]
  simp [hc]

lemma obtain_build_ok {r : Ring} (h : r.free_list = []) (hc : ¬ r.cap ≤ r.usage_list.card)
    (hb : r.build_plan.headD true = true) :
    r.obtain = .ok r.builder_id
      { r with
        usage_list := insert r.usage_list.card r.usage_list,
        builder_id := r.builder_id + 1,
        build_plan := r.build_plan.tail } := by
  have hb2 : r.build_plan.head?.getD true = true := by simpa using hb
  unfold Ring.obtain
  rw [h]
  simp [hc, hb2]

lemma obtain_build_err {r : Ring} (h : r.free_list = []) (hc : ¬ r.cap ≤ r.usage_list.card)
    (hb : r.build_plan.headD true = false) :
    r.obtain = .buildErr { r with build_plan := r.build_plan.tail } := by
  have hb2 : r.build_plan.head?.getD true = false := by simpa using hb
  unfold Ring.obtain
  rw [h]
  simp [hc, hb2]

lemma ringInv_step (s : RingSys) (op : RingOp) (h : RingInv s) :
    RingInv (s.step op) := by
  obtain ⟨h1, h2, h3, h4, h5, h6, h7, h8⟩ := h
  cases op with
  | obtain =>
      rcases hfree : s.ring.free_list with _ | ⟨e, rest⟩
      · have h1e : s.ring.usage_list.card = s.ring.builder_id := by
          rw [hfree] at h1; simpa using h1
        by_cases hcap : s.ring.cap ≤ s.ring.usage_list.card
        · rw [step_obtain_panicked (obtain_panic hfree hcap)]
          exact ⟨h1, h2, h3, h4, h5, h6, h7, h8⟩
        · have hnotmem : s.ring.usage_list.card ∉ s.ring.usage_list := by
            intro hmem
            exact absurd (h6 _ hmem) (by omega)
          have hcard : (insert s.ring.usage_list.card s.ring.usage_list).card
              = s.ring.usage_list.card + 1 := Finset.card_insert_of_not_mem hnotmem
          rcases hb : s.ring.build_plan.headD true with _ | _
          · rw [step_obtain_buildErr (obtain_build_err hfree hcap hb)]
            exact ⟨h1, h2, h3, h4, h5, h6, h7, h8⟩
          · rw [step_obtain_ok (obtain_build_ok hfree hcap hb)]
            simp only [RingInv]
            refine ⟨?_, by simpa using h2, ?_, ?_, ?_, ?_, ?_, ?_⟩
            · simp only [hfree, List.length_nil, Nat.add_zero, hcard]
              omega
            · intro x hx
              rw [hfree] at hx
              simp at hx
            · exact List.nodup_cons.mpr ⟨fun hmem => by
                have := h6 _ (h5 _ hmem); omega, h4⟩
            · intro x hx
              rcases List.mem_cons.mp hx with hx | hx
              · subst hx; rw [← h1e]; exact Finset.mem_insert_self _ _
              · exact Finset.mem_insert_of_mem (h5 _ hx)
            · intro x hx
              rcases Finset.mem_insert.mp hx with hx | hx
              · omega
              · have := h6 _ hx; omega
            · intro x hx
              rw [hfree] at hx
              simp at hx
            · omega
      · have hmemfree : e ∈ s.ring.free_list := by rw [hfree]; exact List.mem_cons_self _ _
        have henot : e ∉ s.ring.usage_list := h3 _ hmemfree
        have hcard : (insert e s.ring.usage_list).card = s.ring.usage_list.card + 1 :=
          Finset.card_insert_of_not_mem henot
        have hrest : ∀ x ∈ rest, x ∈ s.ring.free_list := by
          intro x hx; rw [hfree]; exact List.mem_cons_of_mem _ hx
        have hnodup : (e :: rest).Nodup := hfree ▸ h2
        rw [step_obtain_ok (obtain_pop hfree)]
        simp only [RingInv]
        refine ⟨?_, ?_, ?_, ?_, ?_, ?_, ?_, h8⟩
        · simp only [hcard]
          rw [hfree] at h1; simp at h1; omega
        · exact hnodup.of_cons
        · intro x hx
          intro hmem
          rcases Finset.mem_insert.mp hmem with hx2 | hx2
          · subst hx2; exact (List.nodup_cons.mp hnodup).1 hx
          · exact h3 _ (hrest _ hx) hx2
        · exact List.nodup_cons.mpr ⟨fun hmem => henot (h5 _ hmem), h4⟩
        · intro x hx
          rcases List.mem_cons.mp hx with hx | hx
          · subst hx; exact Finset.mem_insert_self _ _
          · exact Finset.mem_insert_of_mem (h5 _ hx)
        · intro x hx
          rcases Finset.mem_insert.mp hx with hx | hx
          · subst hx; exact h7 _ hmemfree
          · exact h6 _ hx
        · intro x hx; exact h7 _ (hrest _ hx)
  | giveBack id =>
      show RingInv (if id ∈ s.held then ⟨s.ring.return_back id, s.held.erase id⟩ else s)
      by_cases hmem : id ∈ s.held
      · simp only [hmem, if_true]
        have husage : id ∈ s.ring.usage_list := h5 _ hmem
        have hcard : (s.ring.usage_list.erase id).card = s.ring.usage_list.card - 1 :=
          Finset.card_erase_of_mem husage
        have hpos : 1 ≤ s.ring.usage_list.card := Finset.card_pos.mpr ⟨id, husage⟩
        refine ⟨?_, ?_, ?_, ?_, ?_, ?_, ?_, h8⟩
        · simp only [Ring.return_back, hcard, List.length_append, List.length_cons,
            List.length_nil]
          omega
        · simp only [Ring.return_back]
          rw [List.nodup_append]
          exact ⟨h2, List.nodup_singleton _, by
            intro x hx hy
            simp only [List.mem_singleton] at hy
            subst hy
            exact h3 _ hx husage⟩
        · intro x hx
          simp only [Ring.return_back, List.mem_append, List.mem_singleton] at hx
          rcases hx with hx | hx
          · intro hmem2
            exact h3 _ hx (Finset.mem_of_mem_erase hmem2)
          · subst hx
            exact Finset.not_mem_erase _ _
        · exact h4.erase _
        · intro x hx
          have hx2 : x ∈ s.held := List.mem_of_mem_erase hx
          have hne : x ≠ id := by
            intro heq
            subst heq
            exact (List.Nodup.mem_erase_iff h4).mp hx |>.1 rfl
          exact Finset.mem_erase.mpr ⟨hne, h5 _ hx2⟩
        · intro x hx
          exact h6 _ (Finset.mem_of_mem_erase hx)
        · intro x hx
          simp only [Ring.return_back, List.mem_append, List.mem_singleton] at hx
          rcases hx with hx | hx
          · exact h7 _ hx
          · subst hx; exact h6 _ husage
      · simp only [hmem, if_false]
        exact ⟨h1, h2, h3, h4, h5, h6, h7, h8⟩

lemma ringInv_foldl (s : RingSys) (ops : List RingOp) (h : RingInv s) :
    RingInv (ops.foldl RingSys.step s) := by
  induction ops generalizing s with
  | nil => exact h
  | cons op rest ih => exact ih _ (ringInv_step s op h)

lemma obtain_cap {r : Ring} {id : Nat} {r2 : Ring} (h : r.obtain = .ok id r2) :
    r2.cap = r.cap := by
  rcases hfree : r.free_list with _ | ⟨e, rest⟩
  · by_cases hc : r.cap ≤ r.usage_list.card
    · rw [obtain_panic hfree hc] at h
      cases h
    · rcases hb : r.build_plan.headD true with _ | _
      · rw [obtain_build_err hfree hc hb] at h
        cases h
      · rw [obtain_build_ok hfree hc hb] at h
        cases h
        rfl
  · rw [obtain_pop hfree] at h
    cases h
    rfl

/-- Total number of URLs available for dispatch (termination measure of the
fill loop of Workload::start). -/
def Workload.measureUrls (w : Workload) : Nat :=
  w.urls_pool.length + w.retry_pool.totalUrls

lemma retry_get_url_none {rp : RetryPool} {now : Nat} {force : Bool}
    (h : (rp.get_url now force).1 = none) : (rp.get_url now force).2 = rp := by
  obtain ⟨fire, cnt, pool, rc⟩ := rp
  rcases pool with _ | ⟨⟨k, b⟩, rest⟩
  · rfl
  · simp only [RetryPool.get_url] at h ⊢
    by_cases hq : fire < now - k ∨ force = true
    · simp only [hq, if_true] at h ⊢
      rcases b with _ | ⟨u, _ | ⟨v, tail⟩⟩
      · rfl
      · simp at h
      · simp at h
    · simp [hq]

lemma retry_get_url_some_total {rp : RetryPool} {now : Nat} {force : Bool} {u : Url}
    (h : (rp.get_url now force).1 = some u) :
    (rp.get_url now force).2.totalUrls < rp.totalUrls := by
  obtain ⟨fire, cnt, pool, rc⟩ := rp
  rcases pool with _ | ⟨⟨k, b⟩, rest⟩
  · simp [RetryPool.get_url] at h
  · simp only [RetryPool.get_url] at h ⊢
    by_cases hq : fire < now - k ∨ force = true
    · simp only [hq, if_true] at h ⊢
      rcases b with _ | ⟨v, _ | ⟨v2, tail⟩⟩
      · simp at h
      · simp [RetryPool.totalUrls]
      · simp only [RetryPool.totalUrls]
        simp [List.length_dropLast]
    · simp [hq] at h

lemma getLast?_dropLast_length {α : Type} {l : List α} {u : α}
    (h : l.getLast? = some u) : l.dropLast.length < l.length := by
  cases l with
  | nil => simp at h
  | cons a rest => simp [List.length_dropLast]

lemma get_url_no {w : Workload} {now : Nat} (hpol : w.retry_policy = .No) :
    w.get_url now = (w.urls_pool.getLast?, { w with urls_pool := w.urls_pool.dropLast }) := by
  simp only [Workload.get_url, hpol]

lemma get_url_first_some {w : Workload} {now : Nat} {u : Url}
    (hpol : w.retry_policy = .RetryFirst)
    (hr : (w.retry_pool.get_url now w.urls_pool.isEmpty).1 = some u) :
    w.get_url now
      = (some u, { w with retry_pool := (w.retry_pool.get_url now w.urls_pool.isEmpty).2 }) := by
  simp only [Workload.get_url, hpol, hr]

lemma get_url_first_none {w : Workload} {now : Nat}
    (hpol : w.retry_policy = .RetryFirst)
    (hr : (w.retry_pool.get_url now w.urls_pool.isEmpty).1 = none) :
    w.get_url now
      = (w.urls_pool.getLast?,
          { w with retry_pool := (w.retry_pool.get_url now w.urls_pool.isEmpty).2,
                   urls_pool := w.urls_pool.dropLast }) := by
  simp only [Workload.get_url, hpol, hr]

lemma get_url_last_some {w : Workload} {now : Nat} {u : Url}
    (hpol : w.retry_policy = .RetryLast) (hl : w.urls_pool.getLast? = some u) :
    w.get_url now = (some u, { w with urls_pool := w.urls_pool.dropLast }) := by
  simp only [Workload.get_url, hpol, hl]

lemma get_url_last_none {w : Workload} {now : Nat}
    (hpol : w.retry_policy = .RetryLast) (hl : w.urls_pool.getLast? = none) :
    w.get_url now
      = ((w.retry_pool.get_url now true).1,
          { w with retry_pool := (w.retry_pool.get_url now true).2 }) := by
  simp only [Workload.get_url, hpol, hl]

lemma get_url_some_measure {w : Workload} {now : Nat} {u : Url}
    (h : (w.get_url now).1 = some u) :
    (w.get_url now).2.measureUrls < w.measureUrls := by
  cases hpol : w.retry_policy
  case No =>
    rw [get_url_no hpol] at h ⊢
    replace h : w.urls_pool.getLast? = some u := h
    have h2 := getLast?_dropLast_length h
    simp only [Workload.measureUrls]
    omega
  case RetryFirst =>
    rcases hr : (w.retry_pool.get_url now w.urls_pool.isEmpty).1 with _ | v
    · rw [get_url_first_none hpol hr] at h ⊢
      replace h : w.urls_pool.getLast? = some u := h
      have h2 := getLast?_dropLast_length h
      have h3 := retry_get_url_none hr
      simp only [Workload.measureUrls, h3]
      omega
    · rw [get_url_first_some hpol hr] at h ⊢
      have h2 := retry_get_url_some_total hr
      simp only [Workload.measureUrls]
      omega
  case RetryLast =>
    rcases hl : w.urls_pool.getLast? with _ | v
    · rw [get_url_last_none hpol hl] at h ⊢
      replace h : (w.retry_pool.get_url now true).1 = some u := h
      have h2 := retry_get_url_some_total h
      simp only [Workload.measureUrls]
      omega
    · rw [get_url_last_some hpol hl] at h ⊢
      have h2 := getLast?_dropLast_length hl
      simp only [Workload.measureUrls]
      omega

/- ===== The control loop of Workload::start (src/src/workload.rs 79-185) ===== -/

/-- State of the control loop of Workload::start: the frontier fragment, the
engine ring, job_counter (URLs sent and not yet completed), the is_closed
flag, the size of the spawned_jobs map (each spawn inserts a fresh builder
id, so the map grows by one per spawn while the loop never returns engines),
the accumulated results and statistics, and two ghost counters recording the
total number of URLs ever dispatched into the url channel and the total
number of completions processed. -/
structure LoopState where
  w : Workload
  ring : Ring
  job_counter : Nat
  is_closed : Bool
  spawned : Nat
  results : List JValue
  stats : Statistics
  dispatched : Nat
  completedJobs : Nat
  deriving DecidableEq

/-- Result of Workload::spawn_engines (src/src/workload.rs lines 236-254):
normal completion, the io::Error of a failed EngineBuilder::build (the
caller then aborts the crawl), or the panic of the ring. -/
inductive SpawnRes where
  | ok (s : LoopState)
  | buildErr
  | panicked

/-- The while loop of Workload::spawn_engines, written with an explicit
iteration bound: each pass that obtains an engine raises the spawned count
by one while Ring.obtain preserves cap (obtain_cap), so starting the loop
with fuel cap - spawned makes the fuel-exhausted branch coincide with the
loop guard cap <= spawned, and the fueled function computes exactly the
Rust loop. -/
def spawnAux : Nat → LoopState → SpawnRes
  | 0, s => .ok s
  | fuel + 1, s =>
      if s.ring.cap ≤ s.spawned ∨ s.w.is_any_urls = false then .ok s
      else
        match s.ring.obtain with
        | .ok _ r => spawnAux fuel { s with ring := r, spawned := s.spawned + 1 }
        | .buildErr _ => .buildErr
        | .panicked => .panicked

/-- Model of Workload::spawn_engines (src/src/workload.rs lines 236-254):
while the spawned-job count is below ring capacity and any URL is available,
obtain an engine (building one, since the loop never returns engines and the
free list stays empty) and spawn its fetch task. -/
def spawnEngines (s : LoopState) : SpawnRes :=
  spawnAux (s.ring.cap - s.spawned) s

/-- The dispatch loop, written with an explicit iteration bound: each
get_url that yields a URL strictly lowers Workload.measureUrls
(get_url_some_measure), so starting with fuel measureUrls makes the
fuel-exhausted branch (where measureUrls is zero and get_url necessarily
yields none, leaving the state unchanged) coincide with the loop exit. -/
def fillAux : Nat → Nat → LoopState → LoopState
  | 0, _, s => s
  | fuel + 1, now, s =>
      match s.w.get_url now with
      | (some _, w2) =>
          fillAux fuel now
            { s with w := w2, job_counter := s.job_counter + 1,
                     dispatched := s.dispatched + 1 }
      | (none, w2) => { s with w := w2 }

/-- Model of the dispatch loop `while let Some(url) = self.get_url() { send;
job_counter += 1 }` of Workload::start (lines 93-104 and 149-160), in the
use_robot_check = false configuration: every selected URL is sent.  The sent
URL itself is consumed by an engine task; the loop state records the counts. -/
def fillLoop (now : Nat) (s : LoopState) : LoopState :=
  fillAux s.w.measureUrls now s

/-- An occurrence observable by the select of the control loop: a fetch
completion arriving on the result channel (carrying the clock value at which
it is processed) or the cancellation signal. -/
inductive Event where
  | complete (now : Nat) (res : Except BackendError (List Url × JValue))
  | cancel

/-- Model of the `match result` arms of the control loop
(src/src/workload.rs lines 116-140).  On success the extracted value is
pushed, the limit counter advanced (possibly closing intake), and discovered
URLs fed through dedup into the frontier; on a timeout error under a
retrying policy the URL from err.address().unwrap() goes to the retry pool,
being marked permanently visited when keep_retry refuses it; other errors
only count.  Returns none when the unwrap of err.address() would panic. -/
def handleRes (now : Nat) (res : Except BackendError (List Url × JValue))
    (s : LoopState) : Option LoopState :=
  match res with
  | .ok (urls, data) =>
      let s1 := { s with results := s.results ++ [data] }
      let lim := s1.w.inc_limit
      let s2 := { s1 with w := lim.2,
                          is_closed := if lim.1 then true else s1.is_closed }
      let s3 := { s2 with w := s2.w.keep_urls urls }
      some { s3 with stats :=
        { s3.stats with count_collected := s3.stats.count_collected + 1 } }
  | .error err =>
      if err.is_timeout = true ∧ s.w.retry_policy ≠ .No then
        match err.address with
        | some url =>
            let s1 := { s with stats :=
              { s.stats with count_retries := s.stats.count_retries + 1 } }
            let kr := s1.w.retry_pool.keep_retry now url
            let w2 := { s1.w with retry_pool := kr.2 }
            let w3 := if kr.1 then w2 else w2.mark_visited url
            some { s1 with w := w3 }
        | none => none
      else
        some { s with stats :=
          { s.stats with count_errors := s.stats.count_errors + 1 } }

/-- Result of one pass of the control loop body. -/
inductive StepRes where
  | cont (s : LoopState)
  | finished (s : LoopState)
  | fatal (s : LoopState)
  | panicked (s : LoopState)

/-- The state carried by a StepRes. -/
def StepRes.state : StepRes → LoopState
  | .cont s => s
  | .finished s => s
  | .fatal s => s
  | .panicked s => s

/-- The two break checks ending the loop body (src/src/workload.rs lines
163-174): job_counter zero (close channels, await all spawned tasks, break)
or an empty spawned_jobs map (break). -/
def checkBreak (s : LoopState) : StepRes :=
  if s.job_counter = 0 then .finished s
  else if s.spawned = 0 then .finished s
  else .cont s

/-- One iteration of the select loop of Workload::start (lines 109-182).
A completion is processed only when a job is in flight and an engine task
exists (a result can only be sent by a spawned engine working on a sent URL;
the guard makes the function total).  The cancellation arm (lines 176-180)
sets is_closed and closes the url channel; intake stops because the refill
block is guarded by is_closed. -/
def stepEvent (s : LoopState) (e : Event) : StepRes :=
  match e with
  | .cancel => .cont { s with is_closed := true }
  | .complete now res =>
      if s.job_counter = 0 ∨ s.spawned = 0 then .cont s
      else
        let s1 := { s with
          stats := { s.stats with count_visited := s.stats.count_visited + 1 },
          job_counter := s.job_counter - 1,
          completedJobs := s.completedJobs + 1 }
        match handleRes now res s1 with
        | none => .panicked s1
        | some s2 =>
            if s2.is_closed then checkBreak s2
            else
              match spawnEngines s2 with
              | .buildErr => .fatal s2
              | .panicked => .panicked s2
              | .ok s3 => checkBreak (fillLoop now s3)

/-- Where a run of the control loop stands after a list of events: still
waiting, returned normally, aborted on a build error, or panicked. -/
inductive Outcome where
  | running (s : LoopState)
  | finished (s : LoopState)
  | fatal (s : LoopState)
  | panicked (s : LoopState)
  deriving DecidableEq

/-- The state carried by an Outcome. -/
def Outcome.state : Outcome → LoopState
  | .running s => s
  | .finished s => s
  | .fatal s => s
  | .panicked s => s

/-- Process events until the loop breaks, aborts or runs out of events. -/
def procEvents (s : LoopState) : List Event → Outcome
  | [] => .running s
  | e :: es =>
      match stepEvent s e with
      | .cont s2 => procEvents s2 es
      | .finished s2 => .finished s2
      | .fatal s2 => .fatal s2
      | .panicked s2 => .panicked s2

/-- The pair Workload::start returns for a given outcome: a finished loop
returns its accumulated results and statistics; the build-error aborts at
lines 87-90 and 142-147 return an empty vector and default statistics; a
crawl still waiting or panicked returns nothing. -/
def outcomeOutput : Outcome → Option (List JValue × Statistics)
  | .finished s => some (s.results, s.stats)
  | .fatal _ => some ([], Statistics.zero)
  | .running _ => none
  | .panicked _ => none

/-- Model of Workload::start (src/src/workload.rs lines 79-185) with robots
checking disabled: an empty seed returns at once; otherwise the seed is
deduplicated into the frontier, engines are spawned (a build failure aborts),
the initial dispatch loop runs at clock 0, and the select loop processes the
given events. -/
def startCrawl (policy : RetryPolicy) (cap : Nat) (plan : List Bool)
    (fire cnt : Nat) (url_limit : Option Nat) (seed : List Url)
    (events : List Event) : Outcome :=
  let w0 : Workload :=
    { urls_pool := [], retry_policy := policy, retry_pool := RetryPool.new fire cnt,
      seen_list := ∅, url_limit := url_limit }
  let s0 : LoopState :=
    { w := w0, ring := Ring.new cap plan, job_counter := 0, is_closed := false,
      spawned := 0, results := [], stats := Statistics.zero, dispatched := 0,
      completedJobs := 0 }
  if seed.isEmpty then .finished s0
  else
    let s1 := { s0 with w := w0.keep_urls seed }
    match spawnEngines s1 with
    | .buildErr => .fatal s1
    | .panicked => .panicked s1
    | .ok s2 => procEvents (fillLoop 0 s2) events

/-- Model of the null-value handling of the legacy engine generation,
Engine::examine_url (src/src/engine.rs lines 69-79): the extracted value is
appended to the data vector only when it is not null. -/
def examineUrlKeep (data : List JValue) (v : JValue) : List JValue :=
  if v.is_null then data else data ++ [v]

/- ===== Trace helpers for the frontier and the retry pool ===== -/

/-- Feed successive batches of discovered URLs through Workload::keep_urls,
recording the URLs each batch actually added to the frontier. -/
def runBatches (w : Workload) : List (List Url) → List (List Url) × Workload
  | [] => ([], w)
  | b :: rest =>
      let r := w.filter_urls b
      let w2 := { r.2 with urls_pool := r.2.urls_pool ++ r.1 }
      let rr := runBatches w2 rest
      (r.1 :: rr.1, rr.2)

/-- Apply a sequence of keep_retry calls (clock value and URL each). -/
def keepMany (calls : List (Nat × Url)) (rp : RetryPool) : RetryPool :=
  match calls with
  | [] => rp
  | (t, v) :: rest => keepMany rest (rp.keep_retry t v).2

/-- How many of the given keep_retry calls return true for the URL u. -/
def keepRetryTrues (calls : List (Nat × Url)) (u : Url) (rp : RetryPool) : Nat :=
  match calls with
  | [] => 0
  | (t, v) :: rest =>
      let r := rp.keep_retry t v
      (if v = u ∧ r.1 = true then 1 else 0) + keepRetryTrues rest u r.2

/-- Successive results of n get_url calls at a fixed clock and force flag. -/
def drainList : Nat → Nat → Bool → RetryPool → List (Option Url)
  | 0, _, _, _ => []
  | n + 1, now, force, rp =>
      let r := rp.get_url now force
      r.1 :: drainList n now force r.2

/- ===== Retry-cap lemmas (claim C3) ===== -/

lemma rcLookup_store_same (m : List (Url × Nat)) (u : Url) (v : Nat) :
    rcLookup (rcStore m u v) u = v := by
  induction m with
  | nil => simp [rcStore, rcLookup, List.find?]
  | cons p rest ih =>
      by_cases h : p.1 = u
      · simp [rcStore, h, rcLookup, List.find?]
      · simp only [rcStore]
        rw [if_neg (by simpa using h)]
        simp only [rcLookup, List.find?] at ih ⊢
        rw [show (p.1 == u) = false by simpa using h]
        exact ih

lemma rcLookup_store_other (m : List (Url × Nat)) (u v : Url) (c : Nat)
    (h : u ≠ v) : rcLookup (rcStore m v c) u = rcLookup m u := by
  induction m with
  | nil =>
      simp only [rcStore, rcLookup, List.find?]
      rw [show (v == u) = false by simpa using (fun e => h e.symm)]
  | cons p rest ih =>
      by_cases hp : p.1 = v
      · simp only [rcStore]
        rw [if_pos (by simpa using hp)]
        simp only [rcLookup, List.find?]
        rw [show (v == u) = false by simpa using (fun e => h e.symm)]
        rw [show (p.1 == u) = false by simpa using (hp ▸ fun e => h e.symm)]
      · simp only [rcStore]
        rw [if_neg (by simpa using hp)]
        simp only [rcLookup, List.find?] at ih ⊢
        cases hcmp : (p.1 == u) <;> simp [hcmp, ih]

lemma keep_retry_cap_preserved (rp : RetryPool) (now : Nat) (v : Url) :
    (rp.keep_retry now v).2.count_retries = rp.count_retries := by
  simp only [RetryPool.keep_retry]
  by_cases h : rp.count_retries ≤ rcLookup rp.retry_count v + 1 <;> simp [h]

lemma keep_retry_count_eq (rp : RetryPool) (now : Nat) (u v : Url) :
    rcLookup (rp.keep_retry now v).2.retry_count u
      = (if v = u then rcLookup rp.retry_count u + 1 else rcLookup rp.retry_count u) := by
  by_cases hv : v = u
  · subst hv
    rw [if_pos rfl]
    simp only [RetryPool.keep_retry]
    by_cases h : rp.count_retries ≤ rcLookup rp.retry_count v + 1 <;>
      simp [h, rcLookup_store_same]
  · rw [if_neg hv]
    simp only [RetryPool.keep_retry]
    by_cases h : rp.count_retries ≤ rcLookup rp.retry_count v + 1 <;>
      simp [h, rcLookup_store_other _ _ _ _ (fun e => hv e.symm)]

lemma keep_retry_true_iff (rp : RetryPool) (now : Nat) (u : Url) :
    (rp.keep_retry now u).1 = true ↔ rcLookup rp.retry_count u + 1 < rp.count_retries := by
  simp only [RetryPool.keep_retry]
  by_cases h : rp.count_retries ≤ rcLookup rp.retry_count u + 1 <;> simp [h] <;> omega

lemma keepRetryTrues_bound (calls : List (Nat × Url)) (u : Url) (rp : RetryPool) :
    keepRetryTrues calls u rp
      ≤ (rp.count_retries - 1)
          - min (rcLookup rp.retry_count u) (rp.count_retries - 1) := by
  induction calls generalizing rp with
  | nil => simp [keepRetryTrues]
  | cons c rest ih =>
      obtain ⟨t, v⟩ := c
      simp only [keepRetryTrues]
      have hcap := keep_retry_cap_preserved rp t v
      have hcount := keep_retry_count_eq rp t u v
      have hrest := ih (rp.keep_retry t v).2
      rw [hcap, hcount] at hrest
      by_cases hv : v = u
      · rw [if_pos hv] at hrest
        by_cases ht : (rp.keep_retry t v).1 = true
        · have hlt : rcLookup rp.retry_count v + 1 < rp.count_retries :=
            (keep_retry_true_iff rp t v).mp ht
          rw [hv] at hlt
          rw [if_pos ⟨hv, ht⟩]
          omega
        · rw [if_neg (fun hc => ht hc.2)]
          omega
      · rw [if_neg hv] at hrest
        rw [if_neg (fun hc => hv hc.1)]
        omega

/-- The bookkeeping invariant of the select loop: completions never exceed
dispatches and job_counter counts exactly the in-flight URLs. -/
def JInv (s : LoopState) : Prop :=
  s.completedJobs ≤ s.dispatched ∧ s.job_counter = s.dispatched - s.completedJobs

/- ===== Control-loop lemmas (claims C4, C7, C8) ===== -/

lemma spawnAux_ok_fields : ∀ (fuel : Nat) (s s2 : LoopState),
    spawnAux fuel s = .ok s2 →
    s2.w = s.w ∧ s2.job_counter = s.job_counter ∧ s2.is_closed = s.is_closed ∧
    s2.results = s.results ∧ s2.stats = s.stats ∧ s2.dispatched = s.dispatched ∧
    s2.completedJobs = s.completedJobs ∧ s.spawned ≤ s2.spawned := by
  intro fuel
  induction fuel with
  | zero =>
      intro s s2 h
      cases h
      exact ⟨rfl, rfl, rfl, rfl, rfl, rfl, rfl, Nat.le_refl _⟩
  | succ n ih =>
      intro s s2 h
      simp only [spawnAux] at h
      by_cases hg : s.ring.cap ≤ s.spawned ∨ s.w.is_any_urls = false
      · rw [if_pos hg] at h
        cases h
        exact ⟨rfl, rfl, rfl, rfl, rfl, rfl, rfl, Nat.le_refl _⟩
      · rw [if_neg hg] at h
        rcases ho : s.ring.obtain with ⟨id, r⟩ | r | _ <;> rw [ho] at h
        · obtain ⟨h1, h2, h3, h4, h5, h6, h7, h8⟩ := ih _ _ h
          exact ⟨h1, h2, h3, h4, h5, h6, h7, Nat.le_trans (Nat.le_succ _) h8⟩
        · cases h
        · cases h

lemma spawnEngines_ok_fields {s s2 : LoopState} (h : spawnEngines s = .ok s2) :
    s2.w = s.w ∧ s2.job_counter = s.job_counter ∧ s2.is_closed = s.is_closed ∧
    s2.results = s.results ∧ s2.stats = s.stats ∧ s2.dispatched = s.dispatched ∧
    s2.completedJobs = s.completedJobs ∧ s.spawned ≤ s2.spawned :=
  spawnAux_ok_fields _ s s2 h

lemma fillAux_fields : ∀ (fuel now : Nat) (s : LoopState),
    (fillAux fuel now s).is_closed = s.is_closed ∧
    (fillAux fuel now s).results = s.results ∧
    (fillAux fuel now s).stats = s.stats ∧
    (fillAux fuel now s).spawned = s.spawned ∧
    (fillAux fuel now s).completedJobs = s.completedJobs ∧
    (fillAux fuel now s).ring = s.ring ∧
    ∃ k, (fillAux fuel now s).job_counter = s.job_counter + k ∧
         (fillAux fuel now s).dispatched = s.dispatched + k := by
  intro fuel
  induction fuel with
  | zero =>
      intro now s
      exact ⟨rfl, rfl, rfl, rfl, rfl, rfl, 0, rfl, rfl⟩
  | succ n ih =>
      intro now s
      simp only [fillAux]
      rcases hg : s.w.get_url now with ⟨_ | u, w2⟩
      · exact ⟨rfl, rfl, rfl, rfl, rfl, rfl, 0, rfl, rfl⟩
      · obtain ⟨h1, h2, h3, h4, h5, h6, k, hk1, hk2⟩ :=
          ih now { s with w := w2, job_counter := s.job_counter + 1,
                          dispatched := s.dispatched + 1 }
        refine ⟨h1, h2, h3, h4, h5, h6, k + 1, ?_, ?_⟩
        · rw [hk1]
          show s.job_counter + 1 + k = s.job_counter + (k + 1)
          omega
        · rw [hk2]
          show s.dispatched + 1 + k = s.dispatched + (k + 1)
          omega

lemma fillLoop_fields (now : Nat) (s : LoopState) :
    (fillLoop now s).is_closed = s.is_closed ∧
    (fillLoop now s).results = s.results ∧
    (fillLoop now s).stats = s.stats ∧
    (fillLoop now s).spawned = s.spawned ∧
    (fillLoop now s).completedJobs = s.completedJobs ∧
    (fillLoop now s).ring = s.ring ∧
    ∃ k, (fillLoop now s).job_counter = s.job_counter + k ∧
         (fillLoop now s).dispatched = s.dispatched + k :=
  fillAux_fields _ now s

lemma handleRes_some_fields {now : Nat} {res : Except BackendError (List Url × JValue)}
    {s s2 : LoopState} (h : handleRes now res s = some s2) :
    s2.job_counter = s.job_counter ∧ s2.spawned = s.spawned ∧
    s2.dispatched = s.dispatched ∧ s2.completedJobs = s.completedJobs ∧
    s2.ring = s.ring ∧ (s.is_closed = true → s2.is_closed = true) := by
  rcases res with err | ⟨urls, data⟩
  · simp only [handleRes] at h
    by_cases hp : err.is_timeout = true ∧ s.w.retry_policy ≠ .No
    · rw [if_pos hp] at h
      rcases ha : err.address with _ | url <;> rw [ha] at h
      · cases h
      · cases h
        exact ⟨rfl, rfl, rfl, rfl, rfl, fun hc => hc⟩
    · rw [if_neg hp] at h
      cases h
      exact ⟨rfl, rfl, rfl, rfl, rfl, fun hc => hc⟩
  · simp only [handleRes] at h
    cases h
    refine ⟨rfl, rfl, rfl, rfl, rfl, fun hc => ?_⟩
    simp only [hc]
    by_cases hl : (s.w.inc_limit).1 <;> simp [hl]

lemma handleRes_ok_isSome (now : Nat) (urls : List Url) (data : JValue)
    (s : LoopState) : (handleRes now (.ok (urls, data)) s).isSome = true := by
  simp only [handleRes]
  rfl

lemma checkBreak_state (s : LoopState) : (checkBreak s).state = s := by
  simp only [checkBreak]
  by_cases h1 : s.job_counter = 0
  · rw [if_pos h1]
    rfl
  · rw [if_neg h1]
    by_cases h2 : s.spawned = 0
    · rw [if_pos h2]
      rfl
    · rw [if_neg h2]
      rfl

lemma stepEvent_cancel (s : LoopState) :
    stepEvent s .cancel = .cont { s with is_closed := true } := rfl

lemma stepEvent_closed {s : LoopState} (e : Event) (h : s.is_closed = true) :
    (stepEvent s e).state.is_closed = true
      ∧ (stepEvent s e).state.dispatched = s.dispatched := by
  cases e with
  | cancel => exact ⟨rfl, rfl⟩
  | complete now res =>
      simp only [stepEvent]
      by_cases hv : s.job_counter = 0 ∨ s.spawned = 0
      · rw [if_pos hv]
        exact ⟨h, rfl⟩
      · rw [if_neg hv]
        rcases hh : handleRes now res
            { s with
              stats := { s.stats with count_visited := s.stats.count_visited + 1 },
              job_counter := s.job_counter - 1,
              completedJobs := s.completedJobs + 1 } with _ | s2
        · exact ⟨h, rfl⟩
        · obtain ⟨f1, f2, f3, f4, f5, f6⟩ := handleRes_some_fields hh
          have hc2 : s2.is_closed = true := f6 h
          dsimp only
          rw [if_pos hc2, checkBreak_state]
          exact ⟨hc2, f3⟩

lemma stepEvent_jinv {s : LoopState} (e : Event) (h : JInv s) :
    JInv ((stepEvent s e).state) := by
  obtain ⟨hle, hjc⟩ := h
  cases e with
  | cancel => exact ⟨hle, hjc⟩
  | complete now res =>
      simp only [stepEvent]
      by_cases hv : s.job_counter = 0 ∨ s.spawned = 0
      · rw [if_pos hv]
        exact ⟨hle, hjc⟩
      · rw [if_neg hv]
        have hjpos : 0 < s.job_counter := by omega
        rcases hh : handleRes now res
            { s with
              stats := { s.stats with count_visited := s.stats.count_visited + 1 },
              job_counter := s.job_counter - 1,
              completedJobs := s.completedJobs + 1 } with _ | s2
        · exact ⟨by simp [StepRes.state]; omega, by simp [StepRes.state]; omega⟩
        · obtain ⟨f1, f2, f3, f4, f5, f6⟩ := handleRes_some_fields hh
          simp only at f1 f3 f4
          have hs2 : JInv s2 := by
            constructor
            · rw [f3, f4]
              omega
            · rw [f1, f3, f4]
              omega
          by_cases hc : s2.is_closed = true
          · dsimp only
            rw [if_pos hc, checkBreak_state]
            exact hs2
          · dsimp only
            rw [if_neg hc]
            rcases hsp : spawnEngines s2 with s3 | _ | _
            · obtain ⟨g1, g2, g3, g4, g5, g6, g7, g8⟩ := spawnEngines_ok_fields hsp
              obtain ⟨e1, e2, e3, e4, e5, e6, k, ek1, ek2⟩ := fillLoop_fields now s3
              rw [checkBreak_state]
              constructor
              · rw [ek2, e5, g6, g7]
                omega
              · rw [ek1, ek2, e5, g2, g6, g7]
                obtain ⟨h1, h2⟩ := hs2
                omega
            · exact hs2
            · exact hs2

lemma stepEvent_finished_jobs {s s2 : LoopState} {e : Event}
    (h : stepEvent s e = .finished s2) : s2.job_counter = 0 := by
  cases e with
  | cancel => cases h
  | complete now res =>
      simp only [stepEvent] at h
      by_cases hv : s.job_counter = 0 ∨ s.spawned = 0
      · rw [if_pos hv] at h
        cases h
      · rw [if_neg hv] at h
        have hsp : s.spawned ≠ 0 := by omega
        rcases hh : handleRes now res
            { s with
              stats := { s.stats with count_visited := s.stats.count_visited + 1 },
              job_counter := s.job_counter - 1,
              completedJobs := s.completedJobs + 1 } with _ | sm <;> rw [hh] at h
        · cases h
        · obtain ⟨f1, f2, f3, f4, f5, f6⟩ := handleRes_some_fields hh
          dsimp only at h
          simp only at f2
          have hsm : sm.spawned ≠ 0 := by rw [f2]; exact hsp
          by_cases hc : sm.is_closed = true
          · rw [if_pos hc] at h
            simp only [checkBreak] at h
            by_cases hj : sm.job_counter = 0
            · rw [if_pos hj] at h
              cases h
              exact hj
            · rw [if_neg hj, if_neg hsm] at h
              cases h
          · rw [if_neg hc] at h
            rcases hs : spawnEngines sm with s3 | _ | _ <;> rw [hs] at h
            · obtain ⟨g1, g2, g3, g4, g5, g6, g7, g8⟩ := spawnEngines_ok_fields hs
              obtain ⟨e1, e2, e3, e4, e5, e6, k, ek1, ek2⟩ := fillLoop_fields now s3
              have hfsp : (fillLoop now s3).spawned ≠ 0 := by
                rw [e4]
                omega
              simp only [checkBreak] at h
              by_cases hj : (fillLoop now s3).job_counter = 0
              · rw [if_pos hj] at h
                cases h
                exact hj
              · rw [if_neg hj, if_neg hfsp] at h
                cases h
            · cases h
            · cases h

lemma procEvents_closed : ∀ (es : List Event) (s : LoopState),
    s.is_closed = true → (procEvents s es).state.dispatched = s.dispatched := by
  intro es
  induction es with
  | nil => intro s h; rfl
  | cons e rest ih =>
      intro s h
      obtain ⟨hc, hd⟩ := stepEvent_closed e h
      simp only [procEvents]
      rcases hst : stepEvent s e with s2 | s2 | s2 | s2 <;> rw [hst] at hc hd
      · rw [ih s2 hc]
        exact hd
      · exact hd
      · exact hd
      · exact hd

lemma procEvents_append : ∀ (xs ys : List Event) (s : LoopState),
    procEvents s (xs ++ ys)
      = (match procEvents s xs with
        | .running s2 => procEvents s2 ys
        | o => o) := by
  intro xs
  induction xs with
  | nil => intro ys s; rfl
  | cons e rest ih =>
      intro ys s
      simp only [List.cons_append, procEvents]
      rcases hst : stepEvent s e with s2 | s2 | s2 | s2
      · exact ih ys s2
      · rfl
      · rfl
      · rfl

lemma procEvents_finished : ∀ (es : List Event) (s s2 : LoopState), JInv s →
    procEvents s es = .finished s2 → s2.dispatched = s2.completedJobs := by
  intro es
  induction es with
  | nil =>
      intro s s2 hj h
      cases h
  | cons e rest ih =>
      intro s s2 hj h
      simp only [procEvents] at h
      rcases hst : stepEvent s e with s3 | s3 | s3 | s3 <;> rw [hst] at h
      · have hj3 : JInv s3 := by
          have := stepEvent_jinv e hj
          rw [hst] at this
          exact this
        exact ih s3 s2 hj3 h
      · cases h
        have hj3 : JInv s2 := by
          have := stepEvent_jinv e hj
          rw [hst] at this
          exact this
        have hz := stepEvent_finished_jobs hst
        obtain ⟨h1, h2⟩ := hj3
        omega
      · cases h
      · cases h

lemma handleRes_ok_fields {now : Nat} {urls : List Url} {data : JValue}
    {s s2 : LoopState} (h : handleRes now (.ok (urls, data)) s = some s2) :
    s2.results = s.results ++ [data] ∧
    s2.stats.count_visited = s.stats.count_visited ∧
    s2.stats.count_collected = s.stats.count_collected + 1 := by
  simp only [handleRes] at h
  cases h
  exact ⟨rfl, rfl, rfl⟩

lemma is_any_urls_of_pool_ne {w : Workload} (h : w.urls_pool ≠ []) :
    w.is_any_urls = true := by
  have hne : w.urls_pool.isEmpty = false := by
    cases hl : w.urls_pool
    · exact absurd hl h
    · rfl
  simp [Workload.is_any_urls, hne]

lemma keep_urls_cons_ne (w : Workload) (u : Url) (us : List Url)
    (hu : u ∉ w.seen_list) : (w.keep_urls (u :: us)).urls_pool ≠ [] := by
  simp only [Workload.keep_urls, Workload.filter_urls, if_neg hu]
  simp

lemma spawnEngines_first_fail {s : LoopState} (hcap : 1 ≤ s.ring.cap)
    (hsp : s.spawned = 0) (hfree : s.ring.free_list = [])
    (husage : s.ring.usage_list = ∅)
    (hb : s.ring.build_plan.headD true = false)
    (hurls : s.w.is_any_urls = true) :
    spawnEngines s = .buildErr := by
  unfold spawnEngines
  have hfuel : s.ring.cap - s.spawned
      = Nat.succ (s.ring.cap - s.spawned - 1) := by omega
  rw [hfuel]
  simp only [spawnAux]
  rw [if_neg (by rw [hsp, hurls]; simp; omega)]
  rw [obtain_build_err hfree (by rw [husage]; simp; omega) hb]

/- ===== Frontier dedup lemmas (claim C2) ===== -/

lemma filter_urls_fields (urls : List Url) : ∀ (w : Workload),
    (w.filter_urls urls).2.urls_pool = w.urls_pool ∧
    (w.filter_urls urls).2.retry_policy = w.retry_policy ∧
    (w.filter_urls urls).2.retry_pool = w.retry_pool ∧
    (w.filter_urls urls).2.url_limit = w.url_limit := by
  induction urls with
  | nil => exact fun w => ⟨rfl, rfl, rfl, rfl⟩
  | cons u rest ih =>
      intro w
      by_cases h : u ∈ w.seen_list
      · simp only [Workload.filter_urls, if_pos h]
        exact ih w
      · simp only [Workload.filter_urls, if_neg h]
        exact ih _

lemma filter_urls_seen (urls : List Url) : ∀ (w : Workload),
    (w.filter_urls urls).2.seen_list = w.seen_list ∪ urls.toFinset := by
  induction urls with
  | nil =>
      intro w
      simp [Workload.filter_urls]
  | cons u rest ih =>
      intro w
      by_cases h : u ∈ w.seen_list
      · simp only [Workload.filter_urls, if_pos h]
        rw [ih]
        ext x
        simp only [Finset.mem_union, List.toFinset_cons, Finset.mem_insert,
          List.mem_toFinset]
        constructor
        · rintro (hx | hx)
          · exact Or.inl hx
          · exact Or.inr (Or.inr hx)
        · rintro (hx | hx | hx)
          · exact Or.inl hx
          · subst hx
            exact Or.inl h
          · exact Or.inr hx
      · simp only [Workload.filter_urls, if_neg h]
        rw [ih]
        ext x
        simp only [Finset.mem_union, Finset.mem_insert, List.toFinset_cons,
          List.mem_toFinset]
        tauto

lemma filter_urls_kept (urls : List Url) : ∀ (w : Workload),
    (w.filter_urls urls).1.Nodup ∧
    ∀ u ∈ (w.filter_urls urls).1, u ∉ w.seen_list ∧ u ∈ urls := by
  induction urls with
  | nil =>
      intro w
      exact ⟨List.nodup_nil, by intro u hu; simp [Workload.filter_urls] at hu⟩
  | cons u rest ih =>
      intro w
      by_cases h : u ∈ w.seen_list
      · simp only [Workload.filter_urls, if_pos h]
        obtain ⟨ihn, ihm⟩ := ih w
        exact ⟨ihn, fun x hx =>
          ⟨(ihm x hx).1, List.mem_cons_of_mem _ (ihm x hx).2⟩⟩
      · simp only [Workload.filter_urls, if_neg h]
        obtain ⟨ihn, ihm⟩ := ih { w with seen_list := insert u w.seen_list }
        refine ⟨List.nodup_cons.mpr ⟨?_, ihn⟩, ?_⟩
        · intro hc
          exact (ihm u hc).1 (Finset.mem_insert_self _ _)
        · intro x hx
          rcases List.mem_cons.mp hx with hx | hx
          · subst hx
            exact ⟨h, List.mem_cons_self _ _⟩
          · obtain ⟨hs, hm⟩ := ihm x hx
            exact ⟨fun hc => hs (Finset.mem_insert_of_mem hc),
              List.mem_cons_of_mem _ hm⟩

lemma filter_urls_congr (urls : List Url) : ∀ (w1 w2 : Workload),
    (∀ u ∈ urls, (u ∈ w1.seen_list ↔ u ∈ w2.seen_list)) →
    (w1.filter_urls urls).1 = (w2.filter_urls urls).1 := by
  induction urls with
  | nil => intro w1 w2 h; rfl
  | cons u rest ih =>
      intro w1 w2 h
      by_cases h1 : u ∈ w1.seen_list
      · have h2 : u ∈ w2.seen_list := (h u (List.mem_cons_self _ _)).mp h1
        simp only [Workload.filter_urls, if_pos h1, if_pos h2]
        exact ih w1 w2 (fun v hv => h v (List.mem_cons_of_mem _ hv))
      · have h2 : u ∉ w2.seen_list := fun hc => h1 ((h u (List.mem_cons_self _ _)).mpr hc)
        simp only [Workload.filter_urls, if_neg h1, if_neg h2]
        have heq := ih { w1 with seen_list := insert u w1.seen_list }
          { w2 with seen_list := insert u w2.seen_list }
          (fun v hv => by
            simp only [Finset.mem_insert]
            exact or_congr Iff.rfl (h v (List.mem_cons_of_mem _ hv)))
        simp only [heq]

lemma filter_urls_eq_filter (urls : List Url) : ∀ (w : Workload), urls.Nodup →
    (w.filter_urls urls).1 = urls.filter (fun u => decide (u ∉ w.seen_list)) := by
  induction urls with
  | nil => intro w h; rfl
  | cons u rest ih =>
      intro w h
      obtain ⟨hu, hrest⟩ := List.nodup_cons.mp h
      by_cases hs : u ∈ w.seen_list
      · simp only [Workload.filter_urls, if_pos hs, List.filter_cons]
        rw [show (decide (u ∉ w.seen_list)) = false by simp [hs]]
        simp only [Bool.false_eq_true, if_false]
        exact ih w hrest
      · simp only [Workload.filter_urls, if_neg hs, List.filter_cons]
        rw [show (decide (u ∉ w.seen_list)) = true by simp [hs]]
        simp only [if_true]
        have hcongr := filter_urls_congr rest
          { w with seen_list := insert u w.seen_list } w
          (fun v hv => by
            constructor
            · intro hv2
              rcases Finset.mem_insert.mp hv2 with he | he
              · exact absurd (he ▸ hv) hu
              · exact he
            · exact fun hv2 => Finset.mem_insert_of_mem hv2)
        simp only [hcongr, ih w hrest]

lemma runBatches_join (batches : List (List Url)) : ∀ (w : Workload),
    (runBatches w batches).1.flatten.Nodup ∧
    ∀ u ∈ (runBatches w batches).1.flatten, u ∉ w.seen_list := by
  induction batches with
  | nil =>
      intro w
      exact ⟨by simp [runBatches], by intro u hu; simp [runBatches] at hu⟩
  | cons b rest ih =>
      intro w
      obtain ⟨hkn, hkm⟩ := filter_urls_kept b w
      have hseen := filter_urls_seen b w
      obtain ⟨ihn, ihm⟩ := ih
        { (w.filter_urls b).2 with
          urls_pool := (w.filter_urls b).2.urls_pool ++ (w.filter_urls b).1 }
      simp only [runBatches, List.flatten_cons]
      refine ⟨?_, ?_⟩
      · rw [List.nodup_append]
        refine ⟨hkn, ihn, ?_⟩
        intro x hx hx2
        have hxb : x ∈ b := (hkm x hx).2
        have hxseen : x ∈ (w.filter_urls b).2.seen_list := by
          rw [hseen]
          exact Finset.mem_union_right _ (List.mem_toFinset.mpr hxb)
        exact ihm x hx2 hxseen
      · intro u hu
        rcases List.mem_append.mp hu with hu | hu
        · exact (hkm u hu).1
        · intro hc
          refine ihm u hu ?_
          rw [hseen]
          exact Finset.mem_union_left _ hc

lemma foldl_keep_urls_pool (batches : List (List Url)) : ∀ (w : Workload),
    (batches.foldl Workload.keep_urls w).urls_pool
      = w.urls_pool ++ (runBatches w batches).1.flatten := by
  induction batches with
  | nil =>
      intro w
      simp [runBatches]
  | cons b rest ih =>
      intro w
      have hpool := (filter_urls_fields b w).1
      simp only [List.foldl_cons, runBatches, List.join]
      have hstep : w.keep_urls b
          = { (w.filter_urls b).2 with
              urls_pool := (w.filter_urls b).2.urls_pool ++ (w.filter_urls b).1 } := rfl
      rw [hstep, ih]
      simp only [hpool, List.flatten_cons, List.append_assoc]

/- ===== Claim theorems ===== -/

/-- C1: for every sequence of obtain and return_back interactions in which
the caller only returns engines it previously obtained, the number of
checked-out engines never exceeds the ring capacity: after any operation
sequence, count_engines_in_use() is at most capacity().  (An obtain that
would exceed capacity hits the fatal panic branch and freezes the system.) -/
theorem ring_capacity_invariant (cap : Nat) (plan : List Bool) (ops : List RingOp) :
    (RingSys.run cap plan ops).ring.count_engines_in_use
      ≤ (RingSys.run cap plan ops).ring.capacity := by
  obtain ⟨h1, h2, h3, h4, h5, h6, h7, h8⟩ :=
    ringInv_foldl ⟨Ring.new cap plan, []⟩ ops (ringInv_init cap plan)
  simp only [RingSys.run] at *
  simp only [Ring.count_engines_in_use, Ring.capacity]
  omega

/-- C9 counterexample: the claim says is_ignored returns false exactly when
the domain matches an allowed entry after stripping A (single) leading www.
from both sides.  With allowed list [google.com] and the domain
www.www.google.com, the code returns false (not ignored, because
trim_start_matches removes the www. pattern REPEATEDLY) while the
single-strip reading of the claim finds no match. -/
theorem domain_filter_single_strip_counterexample :
    DomainFilter.is_ignored ⟨["google.com"]⟩ ⟨some "www.www.google.com"⟩ = false ∧
    specSingleStripMatch ["google.com"] ⟨some "www.www.google.com"⟩ = false := by
  constructor <;> decide

/-- C9 amended: is_ignored returns false exactly when the URL has a domain
that, after REPEATEDLY stripping leading www. prefixes from both the domain
and the list entry (Rust trim_start_matches semantics), equals some entry;
a URL with no domain is always ignored; with allowed list [google.com], the
domains google.com and www.google.com are not ignored and bing.com is. -/
theorem domain_filter_is_ignored_characterization :
    (∀ (D : List String) (u : UrlRec),
        DomainFilter.is_ignored ⟨D⟩ u = false
          ↔ ∃ h, u.domain = some h
              ∧ ∃ d ∈ D, trimStartMatchesWWW h = trimStartMatchesWWW d) ∧
    (∀ (D : List String) (u : UrlRec),
        u.domain = none → DomainFilter.is_ignored ⟨D⟩ u = true) ∧
    DomainFilter.is_ignored ⟨["google.com"]⟩ ⟨some "google.com"⟩ = false ∧
    DomainFilter.is_ignored ⟨["google.com"]⟩ ⟨some "www.google.com"⟩ = false ∧
    DomainFilter.is_ignored ⟨["google.com"]⟩ ⟨some "bing.com"⟩ = true := by
  refine ⟨?_, ?_, by decide, by decide, by decide⟩
  · intro D u
    obtain ⟨dom⟩ := u
    cases dom with
    | none =>
        simp [DomainFilter.is_ignored]
    | some h =>
        simp [DomainFilter.is_ignored, List.any_eq_true]
  · intro D u hdom
    obtain ⟨dom⟩ := u
    cases hdom
    rfl

/-- C9 witness: the no-domain clause of the amended characterization at a
concrete URL record. -/
theorem domain_filter_witness :
    (UrlRec.mk none).domain = none ∧
    DomainFilter.is_ignored ⟨["google.com"]⟩ ⟨none⟩ = true :=
  ⟨rfl, domain_filter_is_ignored_characterization.2.1 ["google.com"] ⟨none⟩ rfl⟩

/-- C2: filter_urls inserts each incoming URL into the seen set and keeps
exactly those not already present (the kept list is duplicate-free, disjoint
from the prior seen set, and on duplicate-free input equals the filter of
the not-yet-seen URLs); consequently, over any sequence of discovered-link
batches fed through keep_urls, the URLs appended to the frontier are
pairwise distinct — each URL enters the frontier at most once. -/
theorem frontier_dedup_invariant :
    (∀ (w : Workload) (urls : List Url),
        (w.filter_urls urls).1.Nodup ∧
        (∀ u ∈ (w.filter_urls urls).1, u ∉ w.seen_list ∧ u ∈ urls) ∧
        (urls.Nodup →
          (w.filter_urls urls).1 = urls.filter (fun u => decide (u ∉ w.seen_list)))) ∧
    (∀ (batches : List (List Url)) (w : Workload),
        (runBatches w batches).1.flatten.Nodup ∧
        (batches.foldl Workload.keep_urls w).urls_pool
          = w.urls_pool ++ (runBatches w batches).1.flatten) := by
  refine ⟨?_, ?_⟩
  · intro w urls
    obtain ⟨hn, hm⟩ := filter_urls_kept urls w
    exact ⟨hn, hm, fun h => filter_urls_eq_filter urls w h⟩
  · intro batches w
    exact ⟨(runBatches_join batches w).1, foldl_keep_urls_pool batches w⟩

/-- C2 witness: on the duplicate-free batch [a, b] with b already seen,
filter_urls keeps exactly [a]. -/
theorem frontier_dedup_invariant_witness :
    (["a", "b"] : List Url).Nodup ∧
    ((⟨[], .No, RetryPool.new 0 2, insert "b" ∅, none⟩ : Workload).filter_urls
        ["a", "b"]).1 = ["a"] := by
  refine ⟨by decide, ?_⟩
  have h := (frontier_dedup_invariant.1
    ⟨[], .No, RetryPool.new 0 2, insert "b" ∅, none⟩ ["a", "b"]).2.2 (by decide)
  rw [h]
  decide

/-- C3: for a configured retry cap of at least one, keep_retry returns true
strictly fewer than cap times for any URL over any call sequence from a
fresh pool; a call returning false does not enqueue the URL (the bucket map
is unchanged); and in the control-loop timeout arm a false return of
keep_retry marks the URL permanently visited. -/
theorem keep_retry_cap_invariant :
    (∀ (calls : List (Nat × Url)) (u : Url) (fire cap : Nat), 1 ≤ cap →
        keepRetryTrues calls u (RetryPool.new fire cap) < cap) ∧
    (∀ (rp : RetryPool) (now : Nat) (u : Url),
        (rp.keep_retry now u).1 = false → (rp.keep_retry now u).2.pool = rp.pool) ∧
    (∀ (s : LoopState) (now : Nat) (url : Url) (e : BackendError) (s2 : LoopState),
        e.address = some url → e.is_timeout = true → s.w.retry_policy ≠ .No →
        (s.w.retry_pool.keep_retry now url).1 = false →
        handleRes now (.error e) s = some s2 → url ∈ s2.w.seen_list) := by
  refine ⟨?_, ?_, ?_⟩
  · intro calls u fire cap hcap
    have h := keepRetryTrues_bound calls u (RetryPool.new fire cap)
    have h0 : rcLookup (RetryPool.new fire cap).retry_count u = 0 := rfl
    have h1 : (RetryPool.new fire cap).count_retries = cap := rfl
    rw [h0, h1] at h
    omega
  · intro rp now u h
    simp only [RetryPool.keep_retry] at h ⊢
    by_cases hc : rp.count_retries ≤ rcLookup rp.retry_count u + 1
    · rw [if_pos hc]
    · rw [if_neg hc] at h
      simp at h
  · intro s now url e s2 haddr htime hpol hkr hres
    simp only [handleRes] at hres
    rw [if_pos ⟨htime, hpol⟩, haddr] at hres
    simp only [hkr] at hres
    rw [if_neg (by simp)] at hres
    cases hres
    simp [Workload.mark_visited]

/-- C3 witness: with cap 2, two calls on the same URL produce exactly one
true, which is strictly below the cap. -/
theorem keep_retry_cap_invariant_witness :
    1 ≤ 2 ∧ keepRetryTrues [(1, "u"), (2, "u")] "u" (RetryPool.new 0 2) < 2 :=
  ⟨by decide, keep_retry_cap_invariant.1 [(1, "u"), (2, "u")] "u" 0 2 (by decide)⟩

/-- C6: with retry cap 2 and fire threshold 0, after one keep_retry per
three distinct URLs at strictly increasing clock values, successive
get_url(false) calls return the three URLs in insertion order and then
none; in general (for a pool whose buckets are nonempty and whose keys are
strictly sorted, as keep_retry maintains), get_url returns none exactly
when the pool is empty or its earliest bucket neither exceeds the fire
threshold in age nor is forced, returns a URL only from the earliest-keyed
bucket and only when that bucket qualifies, and removes a singleton bucket
it drains. -/
theorem retry_get_url_characterization :
    ((((RetryPool.new 0 2).keep_retry 1 "u1").1 = true ∧
      (((RetryPool.new 0 2).keep_retry 1 "u1").2.keep_retry 2 "u2").1 = true ∧
      ((((RetryPool.new 0 2).keep_retry 1 "u1").2.keep_retry 2 "u2").2.keep_retry 3 "u3").1
        = true) ∧
     drainList 4 4 false (keepMany [(1, "u1"), (2, "u2"), (3, "u3")] (RetryPool.new 0 2))
       = [some "u1", some "u2", some "u3", none]) ∧
    (∀ (rp : RetryPool) (now : Nat) (force : Bool),
      (∀ p ∈ rp.pool, p.2 ≠ []) →
      rp.pool.Pairwise (fun a b => a.1 < b.1) →
      ((rp.get_url now force).1 = none ↔
          (rp.pool = [] ∨ ∃ k b rest, rp.pool = (k, b) :: rest
            ∧ ¬ (rp.fire_time < now - k ∨ force = true))) ∧
      (∀ u, (rp.get_url now force).1 = some u →
          ∃ k b rest, rp.pool = (k, b) :: rest ∧ u ∈ b
            ∧ (rp.fire_time < now - k ∨ force = true)
            ∧ ∀ p ∈ rp.pool, k ≤ p.1) ∧
      (∀ k u rest, rp.pool = (k, [u]) :: rest →
          (rp.fire_time < now - k ∨ force = true) →
          rp.get_url now force = (some u, { rp with pool := rest }))) := by
  refine ⟨⟨⟨by decide, by decide, by decide⟩, by decide⟩, ?_⟩
  intro rp now force hne hsorted
  obtain ⟨fire, cnt, pool, rc⟩ := rp
  rcases pool with _ | ⟨⟨k, b⟩, rest⟩
  · refine ⟨by simp [RetryPool.get_url], ?_, ?_⟩
    · intro u hu
      simp [RetryPool.get_url] at hu
    · intro k u rest h
      simp at h
  · have hbne : b ≠ [] := hne (k, b) (List.mem_cons_self _ _)
    have hkmin : ∀ p ∈ ((k, b) :: rest : List (Nat × List Url)), k ≤ p.1 := by
      intro p hp
      rcases List.mem_cons.mp hp with hp | hp
      · rw [hp]
      · exact Nat.le_of_lt ((List.pairwise_cons.mp hsorted).1 p hp)
    by_cases hq : fire < now - k ∨ force = true
    · refine ⟨?_, ?_, ?_⟩
      · simp only [RetryPool.get_url, if_pos hq]
        rcases b with _ | ⟨u, _ | ⟨v, tail⟩⟩
        · exact absurd rfl hbne
        · simp only
          constructor
          · intro h
            simp at h
          · intro h
            rcases h with h | ⟨k2, b2, r2, heq, hnq⟩
            · simp at h
            · cases heq
              exact absurd hq hnq
        · simp only
          constructor
          · intro h
            rw [List.getLast?_eq_none_iff] at h
            simp at h
          · intro h
            rcases h with h | ⟨k2, b2, r2, heq, hnq⟩
            · simp at h
            · cases heq
              exact absurd hq hnq
      · intro u hu
        simp only [RetryPool.get_url, if_pos hq] at hu
        rcases b with _ | ⟨v, _ | ⟨v2, tail⟩⟩
        · exact absurd rfl hbne
        · simp only at hu
          cases hu
          exact ⟨k, _, rest, rfl, List.mem_singleton_self _, hq, hkmin⟩
        · simp only at hu
          refine ⟨k, v :: v2 :: tail, rest, rfl, ?_, hq, hkmin⟩
          have hxm : u ∈ (v :: v2 :: tail).getLast? := by
            simp [Option.mem_def, hu]
          obtain ⟨hh, heq⟩ := List.mem_getLast?_eq_getLast hxm
          rw [heq]
          exact List.getLast_mem hh
      · intro k2 u r2 heq hq2
        cases heq
        simp only [RetryPool.get_url, if_pos hq2]
    · refine ⟨?_, ?_, ?_⟩
      · simp only [RetryPool.get_url, if_neg hq]
        simp only [true_iff]
        exact Or.inr ⟨k, b, rest, rfl, hq⟩
      · intro u hu
        simp only [RetryPool.get_url, if_neg hq] at hu
        simp at hu
      · intro k2 u r2 heq hq2
        cases heq
        exact absurd hq2 hq

/-- C6 witness: the general characterization applied to a concrete
one-bucket pool that qualifies under force. -/
theorem retry_get_url_characterization_witness :
    (∀ p ∈ ({ fire_time := 50, count_retries := 2, pool := [(3, ["a"])],
              retry_count := [("a", 1)] } : RetryPool).pool, p.2 ≠ []) ∧
    ({ fire_time := 50, count_retries := 2, pool := [(3, ["a"])],
       retry_count := [("a", 1)] } : RetryPool).get_url 4 true
      = (some "a", { fire_time := 50, count_retries := 2, pool := [],
                     retry_count := [("a", 1)] }) := by
  constructor
  · intro p hp
    simp at hp
    rw [hp]
    simp
  · exact (retry_get_url_characterization.2
      { fire_time := 50, count_retries := 2, pool := [(3, ["a"])],
        retry_count := [("a", 1)] } 4 true
      (by intro p hp; simp at hp; rw [hp]; simp)
      (by simp)).2.2 3 "a" [] rfl (Or.inr rfl)

/-- C10: is_timeout is true only on the OpenAddress, RunningScript and
CollectLinks variants, each of which carries an address, so address() is
Some whenever is_timeout() is true; the Other variant is never a timeout;
consequently the control loop arm that unwraps err.address() after checking
is_timeout never reaches the panicking none case. -/
theorem backend_timeout_address_safe :
    (∀ e : BackendError, e.is_timeout = true → e.address.isSome = true) ∧
    (∀ m, (BackendError.other m).is_timeout = false) ∧
    (∀ (s : LoopState) (now : Nat) (e : BackendError),
        e.is_timeout = true → handleRes now (.error e) s ≠ none) := by
  have haddr : ∀ e : BackendError, e.is_timeout = true → e.address.isSome = true := by
    intro e h
    cases e <;>
      simp [BackendError.address] <;>
      simp [BackendError.is_timeout, BackendError.wb_error] at h
  refine ⟨haddr, ?_, ?_⟩
  · intro m
    simp [BackendError.is_timeout, BackendError.wb_error]
  · intro s now e h
    simp only [handleRes]
    by_cases hp : e.is_timeout = true ∧ s.w.retry_policy ≠ .No
    · rw [if_pos hp]
      rcases ha : e.address with _ | url
      · have h2 := haddr e h
        rw [ha] at h2
        simp at h2
      · simp
    · rw [if_neg hp]
      simp

/-- C5: Workload::get_url follows the retry policy exactly: under No it pops
only the frontier (last element of urls_pool) and leaves the retry pool
untouched; under RetryFirst it first asks the retry pool, passing force
exactly when the frontier is empty, and falls back to a frontier pop; under
RetryLast it first pops the frontier and asks the retry pool with force
enabled exactly when the frontier is empty; and it returns none only when
the frontier is empty and (except under No, where the retry pool is never
consulted) the forced retry-pool pop also yields nothing. -/
theorem get_url_policy_characterization (w : Workload) (now : Nat) :
    (w.retry_policy = .No →
        (w.get_url now).1 = w.urls_pool.getLast?
          ∧ (w.get_url now).2.retry_pool = w.retry_pool) ∧
    (w.retry_policy = .RetryFirst →
        (∀ u, (w.retry_pool.get_url now w.urls_pool.isEmpty).1 = some u →
            (w.get_url now).1 = some u ∧ (w.get_url now).2.urls_pool = w.urls_pool) ∧
        ((w.retry_pool.get_url now w.urls_pool.isEmpty).1 = none →
            (w.get_url now).1 = w.urls_pool.getLast?
              ∧ (w.get_url now).2.urls_pool = w.urls_pool.dropLast)) ∧
    (w.retry_policy = .RetryLast →
        (∀ u, w.urls_pool.getLast? = some u →
            (w.get_url now).1 = some u ∧ (w.get_url now).2.retry_pool = w.retry_pool) ∧
        (w.urls_pool = [] →
            (w.get_url now).1 = (w.retry_pool.get_url now true).1)) ∧
    ((w.get_url now).1 = none →
        w.urls_pool = []
          ∧ (w.retry_policy = .No ∨ (w.retry_pool.get_url now true).1 = none)) := by
  refine ⟨?_, ?_, ?_, ?_⟩
  · intro hpol
    rw [get_url_no hpol]
    exact ⟨rfl, rfl⟩
  · intro hpol
    constructor
    · intro u hr
      rw [get_url_first_some hpol hr]
      exact ⟨rfl, rfl⟩
    · intro hr
      rw [get_url_first_none hpol hr]
      exact ⟨rfl, rfl⟩
  · intro hpol
    constructor
    · intro u hl
      rw [get_url_last_some hpol hl]
      exact ⟨rfl, rfl⟩
    · intro hpool
      have hl : w.urls_pool.getLast? = none := by
        rw [hpool]
        rfl
      rw [get_url_last_none hpol hl]
  · intro hnone
    cases hpol : w.retry_policy
    case No =>
      rw [get_url_no hpol] at hnone
      replace hnone : w.urls_pool.getLast? = none := hnone
      exact ⟨List.getLast?_eq_none_iff.mp hnone, Or.inl rfl⟩
    case RetryFirst =>
      rcases hr : (w.retry_pool.get_url now w.urls_pool.isEmpty).1 with _ | u
      · rw [get_url_first_none hpol hr] at hnone
        replace hnone : w.urls_pool.getLast? = none := hnone
        have hpool := List.getLast?_eq_none_iff.mp hnone
        rw [hpool] at hr
        simp only [List.isEmpty_nil] at hr
        exact ⟨hpool, Or.inr hr⟩
      · rw [get_url_first_some hpol hr] at hnone
        simp at hnone
    case RetryLast =>
      rcases hl : w.urls_pool.getLast? with _ | u
      · have hpool := List.getLast?_eq_none_iff.mp hl
        rw [get_url_last_none hpol hl] at hnone
        replace hnone : (w.retry_pool.get_url now true).1 = none := hnone
        exact ⟨hpool, Or.inr hnone⟩
      · rw [get_url_last_some hpol hl] at hnone
        simp at hnone

/-- C5 witness: the RetryLast clauses at a concrete workload whose frontier
holds one URL and whose retry pool is empty. -/
theorem get_url_policy_witness :
    ((⟨["http://a.com"], .RetryLast, RetryPool.new 0 2, ∅, none⟩ : Workload).retry_policy
        = .RetryLast) ∧
    ((⟨["http://a.com"], .RetryLast, RetryPool.new 0 2, ∅, none⟩ : Workload).urls_pool.getLast?
        = some "http://a.com") ∧
    ((⟨["http://a.com"], .RetryLast, RetryPool.new 0 2, ∅, none⟩ : Workload).get_url 5).1
        = some "http://a.com" := by
  refine ⟨rfl, rfl, ?_⟩
  exact ((get_url_policy_characterization
    ⟨["http://a.com"], .RetryLast, RetryPool.new 0 2, ∅, none⟩ 5).2.2.1 rfl).1
    "http://a.com" rfl |>.1

/-- C10 witness: a concrete timeout error has an address. -/
theorem backend_timeout_address_safe_witness :
    (BackendError.openAddress .timeout "http://a.com").is_timeout = true ∧
    (BackendError.openAddress .timeout "http://a.com").address.isSome = true :=
  ⟨by decide, backend_timeout_address_safe.1 _ (by decide)⟩

/-- C4: after the cancellation signal is processed the loop dispatches no
further URL — the ghost dispatch counter after any events following the
cancellation equals its value right after the cancellation — and whenever
the loop returns normally (which requires job_counter to reach zero, since
a processed completion presupposes a spawned engine), every URL ever
dispatched has had its completion processed. -/
theorem cancellation_drains :
    (∀ (s : LoopState) (pre post : List Event),
        (procEvents s (pre ++ Event.cancel :: post)).state.dispatched
          = (procEvents s (pre ++ [Event.cancel])).state.dispatched) ∧
    (∀ (es : List Event) (s s2 : LoopState), JInv s →
        procEvents s es = .finished s2 → s2.dispatched = s2.completedJobs) := by
  constructor
  · intro s pre post
    rw [procEvents_append pre (Event.cancel :: post) s,
        procEvents_append pre [Event.cancel] s]
    rcases hp : procEvents s pre with s3 | s3 | s3 | s3
    · dsimp only
      simp only [procEvents, stepEvent_cancel]
      have hcl : ({ s3 with is_closed := true } : LoopState).is_closed = true := rfl
      rw [procEvents_closed post _ hcl]
      rfl
    · rfl
    · rfl
    · rfl
  · intro es s s2 hj h
    exact procEvents_finished es s s2 hj h

/-- C4 witness: a one-job state satisfying the bookkeeping invariant whose
single completion finishes the loop with dispatched = completed. -/
theorem cancellation_drains_witness :
    JInv ⟨⟨[], .No, ⟨0, 2, [], []⟩, ∅, none⟩, ⟨[], ∅, 1, 1, []⟩, 1, false, 1, [],
      ⟨0, 0, 0, 0⟩, 1, 0⟩ ∧
    (⟨⟨[], .No, ⟨0, 2, [], []⟩, ∅, none⟩, ⟨[], ∅, 1, 1, []⟩, 0, false, 1,
      [.str "x"], ⟨0, 0, 1, 1⟩, 1, 1⟩ : LoopState).dispatched
      = (⟨⟨[], .No, ⟨0, 2, [], []⟩, ∅, none⟩, ⟨[], ∅, 1, 1, []⟩, 0, false, 1,
          [.str "x"], ⟨0, 0, 1, 1⟩, 1, 1⟩ : LoopState).completedJobs := by
  constructor
  · exact ⟨by decide, by decide⟩
  · exact cancellation_drains.2 [.complete 1 (.ok ([], .str "x"))]
      ⟨⟨[], .No, ⟨0, 2, [], []⟩, ∅, none⟩, ⟨[], ∅, 1, 1, []⟩, 1, false, 1, [],
        ⟨0, 0, 0, 0⟩, 1, 0⟩
      ⟨⟨[], .No, ⟨0, 2, [], []⟩, ∅, none⟩, ⟨[], ∅, 1, 1, []⟩, 0, false, 1,
        [.str "x"], ⟨0, 0, 1, 1⟩, 1, 1⟩
      ⟨by decide, by decide⟩ (by decide)

/-- C7: a failure of EngineBuilder::build aborts the whole crawl at once —
whether in the initial spawn pass of start or in a refill pass inside the
select loop, the crawl returns an empty result list and default statistics
(the abort is the fatal propagation of the build error: per the spec the
crawl's only outputs are the result list and the statistics, and the error
is reported by logging); with a nonempty seed, positive capacity and a
first build outcome that fails, the initial pass does abort; the default
statistics count no per-URL error. -/
theorem build_error_aborts :
    (∀ (policy : RetryPolicy) (cap : Nat) (plan : List Bool) (fire cnt : Nat)
        (lim : Option Nat) (seed : List Url) (events : List Event) (s : LoopState),
        startCrawl policy cap plan fire cnt lim seed events = .fatal s →
        outcomeOutput (startCrawl policy cap plan fire cnt lim seed events)
          = some ([], Statistics.zero)) ∧
    (∀ (s0 : LoopState) (events : List Event) (s : LoopState),
        procEvents s0 events = .fatal s →
        outcomeOutput (procEvents s0 events) = some ([], Statistics.zero)) ∧
    (∀ (policy : RetryPolicy) (cap : Nat) (plan : List Bool) (fire cnt : Nat)
        (lim : Option Nat) (seed : List Url) (events : List Event),
        1 ≤ cap → plan.headD true = false → seed ≠ [] →
        ∃ s, startCrawl policy cap plan fire cnt lim seed events = .fatal s) ∧
    Statistics.zero.count_errors = 0 := by
  refine ⟨?_, ?_, ?_, rfl⟩
  · intro policy cap plan fire cnt lim seed events s h
    rw [h]
    rfl
  · intro s0 events s h
    rw [h]
    rfl
  · intro policy cap plan fire cnt lim seed events hcap hplan hseed
    rcases seed with _ | ⟨u, us⟩
    · exact absurd rfl hseed
    · simp only [startCrawl]
      rw [if_neg (by simp)]
      have hspawn : spawnEngines
          { w := (⟨[], policy, RetryPool.new fire cnt, ∅, lim⟩ : Workload).keep_urls
              (u :: us),
            ring := Ring.new cap plan, job_counter := 0, is_closed := false,
            spawned := 0, results := [], stats := Statistics.zero, dispatched := 0,
            completedJobs := 0 } = .buildErr := by
        apply spawnEngines_first_fail
        · exact hcap
        · rfl
        · rfl
        · rfl
        · exact hplan
        · exact is_any_urls_of_pool_ne
            (keep_urls_cons_ne _ u us (by simp))
      rw [hspawn]
      exact ⟨_, rfl⟩

/-- C7 witness: a concrete crawl with one seed, capacity one and a failing
first build aborts with the empty output. -/
theorem build_error_aborts_witness :
    (1 ≤ 1 ∧ ([false] : List Bool).headD true = false ∧ (["a"] : List Url) ≠ []) ∧
    outcomeOutput (startCrawl .No 1 [false] 0 2 none ["a"] [])
      = some ([], Statistics.zero) := by
  refine ⟨⟨by decide, by decide, by decide⟩, ?_⟩
  obtain ⟨s, hs⟩ := build_error_aborts.2.2.1 .No 1 [false] 0 2 none ["a"] []
    (by decide) (by decide) (by decide)
  exact build_error_aborts.1 .No 1 [false] 0 2 none ["a"] [] s hs

/-- C8 counterexample: the claim says a successful fetch with a null
extracted value contributes no entry to the result list.  In the Workload
control loop a crawl of one URL whose fetch succeeds with a null value
returns the result list [null] — the null IS appended (and counted as
collected), refuting the claim at this input while visited is 1 as stated. -/
theorem null_value_counterexample :
    outcomeOutput (startCrawl .No 1 [] 0 2 none ["a"]
        [.complete 1 (.ok ([], .null))])
      = some ([JValue.null], ⟨0, 0, 1, 1⟩) ∧
    (JValue.null).is_null = true := by
  constructor <;> decide

/-- C8 amended: in the Workload control loop every successful fetch appends
its extracted value to the result list unconditionally — null included —
and increments both the visited and the collected counters; the
null-dropping behaviour exists only in the legacy engine generation, whose
Engine::examine_url appends the value exactly when it is not null. -/
theorem success_appends_value :
    (∀ (s : LoopState) (now : Nat) (urls : List Url) (data : JValue),
        ¬ (s.job_counter = 0 ∨ s.spawned = 0) →
        (stepEvent s (.complete now (.ok (urls, data)))).state.results
            = s.results ++ [data] ∧
        (stepEvent s (.complete now (.ok (urls, data)))).state.stats.count_visited
            = s.stats.count_visited + 1 ∧
        (stepEvent s (.complete now (.ok (urls, data)))).state.stats.count_collected
            = s.stats.count_collected + 1) ∧
    (∀ ds : List JValue, examineUrlKeep ds .null = ds) ∧
    (∀ (ds : List JValue) (v : JValue),
        v.is_null = false → examineUrlKeep ds v = ds ++ [v]) := by
  refine ⟨?_, fun ds => rfl, ?_⟩
  · intro s now urls data hv
    simp only [stepEvent]
    rw [if_neg hv]
    rcases hh : handleRes now (.ok (urls, data))
        { s with
          stats := { s.stats with count_visited := s.stats.count_visited + 1 },
          job_counter := s.job_counter - 1,
          completedJobs := s.completedJobs + 1 } with _ | s2
    · have hsome := handleRes_ok_isSome now urls data
        { s with
          stats := { s.stats with count_visited := s.stats.count_visited + 1 },
          job_counter := s.job_counter - 1,
          completedJobs := s.completedJobs + 1 }
      rw [hh] at hsome
      simp at hsome
    · obtain ⟨r1, r2, r3⟩ := handleRes_ok_fields hh
      simp only at r1 r2 r3
      dsimp only
      by_cases hc : s2.is_closed = true
      · rw [if_pos hc, checkBreak_state]
        exact ⟨r1, r2, r3⟩
      · rw [if_neg hc]
        rcases hsp : spawnEngines s2 with s3 | _ | _
        · obtain ⟨g1, g2, g3, g4, g5, g6, g7, g8⟩ := spawnEngines_ok_fields hsp
          obtain ⟨e1, e2, e3, e4, e5, e6, k, ek1, ek2⟩ := fillLoop_fields now s3
          rw [checkBreak_state]
          refine ⟨?_, ?_, ?_⟩
          · rw [e2, g4, r1]
          · rw [e3, g5, r2]
          · rw [e3, g5, r3]
        · exact ⟨r1, r2, r3⟩
        · exact ⟨r1, r2, r3⟩
  · intro ds v hv
    cases v with
    | null => cases hv
    | str x => rfl

/-- C8 witness for the amended claim: a state with one job in flight whose
completion carries a null value ends the step with null appended and both
counters advanced. -/
theorem success_appends_value_witness :
    ¬ ((1 : Nat) = 0 ∨ (1 : Nat) = 0) ∧
    (stepEvent
        ⟨⟨[], .No, ⟨0, 2, [], []⟩, ∅, none⟩, ⟨[], ∅, 1, 1, []⟩, 1, false, 1, [],
          ⟨0, 0, 0, 0⟩, 1, 0⟩
        (.complete 1 (.ok ([], .null)))).state.results = [JValue.null] :=
  ⟨by decide,
    (success_appends_value.1
      ⟨⟨[], .No, ⟨0, 2, [], []⟩, ∅, none⟩, ⟨[], ∅, 1, 1, []⟩, 1, false, 1, [],
        ⟨0, 0, 0, 0⟩, 1, 0⟩ 1 [] .null (by decide)).1⟩

end Doonop
